import Mathlib

/-!
# Verification of the LedgerSG core against its specification

Shallow embedding of the money kernel (`common/decimal_utils.py`), the tenant
isolation middleware (`common/middleware/tenant_context.py`), the bank
reconciliation service (`apps/banking/services/reconciliation_service.py`), and
the payment allocation engine, together with proofs of the specified
properties.

Python `Decimal` values are embedded as exact rationals `ℚ`.  A `Decimal`
quantized to `k` fractional places is the rational `n / 10^k` for an integer
coefficient `n`; quantization raises `InvalidOperation` (trapped, hence an
error) when the resulting coefficient would need more than the context
precision of 28 digits, which we model as the guard `n.natAbs < 10^28`.
Arithmetic inside the 28-digit context is exact for the magnitudes exercised
here and is embedded as exact rational arithmetic.
-/

namespace LedgerSG

/-- Python `ROUND_HALF_UP` (ties away from zero) applied to a rational,
producing the nearest integer. -/
def roundHalfUpZ (x : ℚ) : ℤ :=
  if 0 ≤ x then ⌊x + 1/2⌋ else -⌊-x + 1/2⌋

/-- Python `ROUND_HALF_EVEN` (bankers' rounding, the default context rounding
mode) applied to a rational, producing the nearest integer. -/
def roundHalfEvenZ (x : ℚ) : ℤ :=
  let f := ⌊x⌋
  if x - f < 1/2 then f
  else if 1/2 < x - f then f + 1
  else if f % 2 = 0 then f else f + 1

/-- Statement that `n` is a correct rounding of `x` to an integer with ties
away from zero: within half a unit, and at an exact tie the magnitude does
not shrink. -/
def RoundsHalfAway (x : ℚ) (n : ℤ) : Prop :=
  |x - (n : ℚ)| ≤ 1/2 ∧ (|x - (n : ℚ)| = 1/2 → |x| ≤ |(n : ℚ)|)

/-- Statement that `n` is a correct rounding of `x` to an integer with ties
to even. -/
def RoundsHalfEven (x : ℚ) (n : ℤ) : Prop :=
  |x - (n : ℚ)| ≤ 1/2 ∧ (|x - (n : ℚ)| = 1/2 → Even n)

/-! ## Money kernel (`common/decimal_utils.py`)

A Python value reaching the money helpers is a float, a string, an int or a
`Decimal`.  A string is carried together with its parsed numeric value
(`none` when `Decimal(s)` raises, or when the parse yields `NaN`/`Infinity`,
both of which make the subsequent `quantize` raise a trapped
`InvalidOperation`); the lexical grammar of decimal literals is not itself
modelled. -/

inductive PyNum where
  | pfloat : PyNum
  | pstr : Option ℚ → PyNum
  | pint : ℤ → PyNum
  | pdec : ℚ → PyNum
deriving DecidableEq

/-- The numeric value of a non-float input, when it has one. -/
def numVal : PyNum → Option ℚ
  | .pfloat => none
  | .pstr o => o
  | .pint n => some (n : ℚ)
  | .pdec q => some q

inductive MoneyError where
  | invalidAmount   -- `TypeError` on float input
  | cannotConvert   -- `ValueError` / trapped `InvalidOperation`
  | divideByZero    -- `ZeroDivisionError`
deriving DecidableEq

/-- Quantize with 4 fractional places under `ROUND_HALF_UP`, failing when the
resulting coefficient would exceed the context precision of 28 digits
(`InvalidOperation` is trapped in `money`). -/
def quantize4HU (q : ℚ) : Except MoneyError ℚ :=
  let n := roundHalfUpZ (q * 10^4)
  if n.natAbs < 10^28 then .ok ((n : ℚ) / 10^4) else .error .cannotConvert

/-- Quantize with 4 fractional places under the ambient default context
rounding `ROUND_HALF_EVEN` (used by the `quantize` calls that sit outside a
`localcontext` block in `decimal_utils.py`). -/
def quantize4HE (q : ℚ) : Except MoneyError ℚ :=
  let n := roundHalfEvenZ (q * 10^4)
  if n.natAbs < 10^28 then .ok ((n : ℚ) / 10^4) else .error .cannotConvert

/-- Embedding of `money(value)` from `common/decimal_utils.py`: rejects floats with
`TypeError`, then quantizes `Decimal(str(value))` to 4 places with
`ROUND_HALF_UP` inside a localcontext, turning conversion failures into
`ValueError`. -/
def money : PyNum → Except MoneyError ℚ
  | .pfloat => .error .invalidAmount
  | v =>
    match numVal v with
    | none => .error .cannotConvert
    | some q => quantize4HU q

/-- Embedding of `sum_money(values)`: folds `total += money(value)` starting from 0 (exact
in the 28-digit context for the magnitudes admitted by the quantize guard),
then requantizes the total to 4 places outside any localcontext, i.e. with the
default `ROUND_HALF_EVEN` rounding. -/
def sum_money_aux : ℚ → List PyNum → Except MoneyError ℚ
  | acc, [] => .ok acc
  | acc, v :: vs =>
    match money v with
    | .error e => .error e
    | .ok m => sum_money_aux (acc + m) vs

def sum_money (vs : List PyNum) : Except MoneyError ℚ := do
  let total ← sum_money_aux 0 vs
  quantize4HE total

/-- Conversion of a whole list through `money`, failing on the first failing
element; used to speak about the exact values being summed. -/
def moneyList : List PyNum → Except MoneyError (List ℚ)
  | [] => .ok []
  | v :: vs =>
    match money v with
    | .error e => .error e
    | .ok m =>
      match moneyList vs with
      | .error e => .error e
      | .ok ms => .ok (m :: ms)

/-- Embedding of `multiply_money(a, b)`: the product of the converted
operands requantized to 4 places
outside any localcontext (default `ROUND_HALF_EVEN`). -/
def multiply_money (a b : PyNum) : Except MoneyError ℚ := do
  let x ← money a
  let y ← money b
  quantize4HE (x * y)

/-- Embedding of `divide_money(dividend, divisor)`: converts the divisor first and raises
`ZeroDivisionError` on zero, then divides and requantizes to 4 places outside
any localcontext (default `ROUND_HALF_EVEN`). -/
def divide_money (a b : PyNum) : Except MoneyError ℚ := do
  let y ← money b
  if y = 0 then .error .divideByZero
  else do
    let x ← money a
    quantize4HE (x / y)

/-- A digit rendered as its character. -/
def digitChar (d : ℕ) : Char := Char.ofNat (48 + d)

/-- The decimal digit string of a natural number, most significant first
(the rendering used by `str` on an integer coefficient). -/
def natDigitString (n : ℕ) : List Char :=
  if n = 0 then [digitChar 0] else ((Nat.digits 10 n).reverse).map digitChar

/-- Rendering produced by `str` on a Decimal with exponent −2: optional sign, integer-part digits,
a point, and exactly two fractional digits.  `neg` is the sign of the
Decimal (a negative value quantizing to a zero coefficient still prints a
minus, e.g. `-0.00`). -/
def renderFixed2 (neg : Bool) (coeff : ℕ) : List Char :=
  (if neg then ['-'] else []) ++
    natDigitString (coeff / 100) ++ ['.'] ++
    (if coeff % 100 < 10 then [digitChar 0] else []) ++
    natDigitString (coeff % 100)

/-- Embedding of `display_money(value)`: rejects floats, quantizes to 2 places with
`ROUND_HALF_UP` inside a localcontext (`InvalidOperation` trapped by the
default traps), and renders with `str` — which inserts no thousands
separators. -/
def display_money : PyNum → Except MoneyError (List Char)
  | .pfloat => .error .invalidAmount
  | v =>
    match numVal v with
    | none => .error .cannotConvert
    | some q =>
      let n := roundHalfUpZ (q * 10^2)
      if n.natAbs < 10^28 then
        .ok (renderFixed2 (decide (q < 0)) n.natAbs)
      else .error .cannotConvert

/-! ## Reconciliation and matching engine
(`apps/banking/services/reconciliation_service.py`)

Rows and entities carry the fields the service reads or writes.  Dates and
timestamps are opaque naturals; ids are naturals (database primary keys,
unique per table). -/

structure BankTransaction where
  id : ℕ
  org_id : ℕ
  bank_account_id : ℕ
  transaction_date : ℕ
  description : List Char
  amount : ℚ
  is_reconciled : Bool
  reconciled_at : Option ℕ
  matched_payment : Option ℕ
deriving DecidableEq

structure Payment where
  id : ℕ
  org_id : ℕ
  bank_account_id : ℕ
  amount : ℚ
  is_voided : Bool
  is_reconciled : Bool
deriving DecidableEq

structure BankState where
  transactions : List BankTransaction
  payments : List Payment
deriving DecidableEq

inductive RecError where
  | resourceNotFound      -- `ResourceNotFound`
  | alreadyReconciled     -- `ValidationError` "Transaction is already reconciled."
  | voidedPayment         -- `ValidationError` "Cannot reconcile to a voided payment."
  | bankAccountMismatch   -- `ValidationError` "Payment bank account does not match..."
  | amountMismatch        -- `ValidationError` "Amount mismatch: ..."
  | notReconciled         -- `ValidationError` "Transaction is not reconciled."
  | bankAccountInactive   -- `ValidationError` "Bank account is not active."
deriving DecidableEq

/-- Lookup of `BankTransaction.objects.get(id=transaction_id, org_id=org_id)`
as used by `get_transaction`. -/
def findTxn (s : BankState) (org tid : ℕ) : Option BankTransaction :=
  s.transactions.find? (fun t => t.id == tid && t.org_id == org)

/-- Lookup of `Payment.objects.get(id=payment_id, org_id=org_id)`. -/
def findPayment (s : BankState) (org pid : ℕ) : Option Payment :=
  s.payments.find? (fun p => p.id == pid && p.org_id == org)

/-- The field update performed on the transaction by a successful
reconcile. -/
def txnReconciled (t : BankTransaction) (pid now : ℕ) : BankTransaction :=
  { t with is_reconciled := true, reconciled_at := some now,
           matched_payment := some pid }

/-- The field update performed on the transaction by unreconcile. -/
def txnCleared (t : BankTransaction) : BankTransaction :=
  { t with is_reconciled := false, reconciled_at := none,
           matched_payment := none }

/-- Setting a payment's reconciled flag (its only reconciliation-related
write). -/
def paySet (b : Bool) (p : Payment) : Payment := { p with is_reconciled := b }

/-- Embedding of `ReconciliationService.reconcile`: checks, in source order,
that the transaction exists and is not reconciled, that the payment exists,
is not voided and sits on the same bank account, and that the amounts differ
by at most the tolerance — which is the local constant 1.00, not a caller
parameter.  The payment's own `is_reconciled` flag is never checked.  On
success both rows are saved by primary key; `now` is the value of
`timezone.now()`. -/
def reconcile (s : BankState) (org tid pid now : ℕ) :
    Except RecError (BankState × BankTransaction) :=
  match findTxn s org tid with
  | none => .error .resourceNotFound
  | some t =>
    if t.is_reconciled then .error .alreadyReconciled
    else
      match findPayment s org pid with
      | none => .error .resourceNotFound
      | some p =>
        if p.is_voided then .error .voidedPayment
        else if p.bank_account_id ≠ t.bank_account_id then .error .bankAccountMismatch
        else if 1 < |t.amount - p.amount| then .error .amountMismatch
        else
          let t' := txnReconciled t pid now
          .ok ({ transactions :=
                   s.transactions.map (fun u => if u.id == t.id then t' else u),
                 payments :=
                   s.payments.map (fun q =>
                     if q.id == p.id then paySet true q else q) },
               t')

/-- Embedding of `ReconciliationService.unreconcile`: requires the
transaction to be reconciled, clears its reconciliation fields, and clears
the matched payment's flag with `Payment.objects.filter(id=old_payment_id)`
— an id-only filter, no tenant scope. -/
def unreconcile (s : BankState) (org tid : ℕ) :
    Except RecError (BankState × BankTransaction) :=
  match findTxn s org tid with
  | none => .error .resourceNotFound
  | some t =>
    if !t.is_reconciled then .error .notReconciled
    else
      let t' := txnCleared t
      let payments' :=
        match t.matched_payment with
        | some pid => s.payments.map (fun q =>
            if q.id == pid then paySet false q else q)
        | none => s.payments
      .ok ({ transactions :=
               s.transactions.map (fun u => if u.id == t.id then t' else u),
             payments := payments' }, t')

/-- One entry of the list built by `suggest_matches`. -/
structure Suggestion where
  payment_id : ℕ
  amount_difference : ℚ
  score : ℤ
deriving DecidableEq

/-- Embedding of `ReconciliationService.suggest_matches`: the one entry
point with a caller-supplied tolerance.  Scans unreconciled, non-voided
payments of the tenant on the transaction's bank account, keeps those within
`tolerance`, scores them `100 - int(diff * 10)`, sorts by score descending
(stable) and truncates to 10. -/
def suggest_matches (s : BankState) (org tid : ℕ) (tolerance : ℚ) :
    Except RecError (List Suggestion) :=
  match findTxn s org tid with
  | none => .error .resourceNotFound
  | some t =>
    if t.is_reconciled then .ok []
    else
      let candidates := s.payments.filter (fun p =>
        p.org_id == org && p.bank_account_id == t.bank_account_id &&
        !p.is_voided && !p.is_reconciled)
      let suggestions :=
        (candidates.filter (fun p => |t.amount - p.amount| ≤ tolerance)).map
          (fun p => { payment_id := p.id,
                      amount_difference := |t.amount - p.amount|,
                      score := 100 - ⌊|t.amount - p.amount| * 10⌋ })
      .ok ((suggestions.mergeSort
              (fun a b => decide (b.score ≤ a.score))).take 10)

/-! ## CSV import (`ReconciliationService.import_csv`)

A CSV row is represented by its parse outcome: row-text parsing
(field chaining, `strptime` with the two accepted date formats,
comma-stripping of the amount) is a pure function of the row text, so an
identical CSV batch parses to identical `CsvRow` values; rows that fail any
of those parses are `invalid`.  A valid row carries the parsed date, the
decimal value of the amount string, and the description. -/

inductive CsvRow where
  | invalid : CsvRow
  | valid : (date : ℕ) → (rawAmount : ℚ) → (description : List Char) → CsvRow
deriving DecidableEq

/-- State threaded through the import loop: the existing transactions, the
next fresh primary key, and the two counters of the result dict. -/
structure ImportState where
  txns : List BankTransaction
  nextId : ℕ
  imported : ℕ
  skipped : ℕ
deriving DecidableEq

/-- The deduplication lookup `BankTransaction.objects.filter(bank_account=…,
transaction_date=…, amount=…, description=description[:500])`. -/
def keyExists (txns : List BankTransaction) (ba d : ℕ) (a : ℚ)
    (desc : List Char) : Bool :=
  txns.any (fun t => t.bank_account_id == ba && t.transaction_date == d &&
    t.amount == a && t.description == desc)

/-- One iteration of the `import_csv` row loop: parse failures are counted
as skipped (with an error recorded), an amount rejected by `money` is
skipped, a row whose deduplication key already exists is skipped without an
error, and any other row creates a transaction (unreconciled, batch id and
source fields omitted here). -/
def importRowStep (org ba : ℕ) (s : ImportState) (r : CsvRow) : ImportState :=
  match r with
  | .invalid => { s with skipped := s.skipped + 1 }
  | .valid d a desc =>
    match money (.pstr (some a)) with
    | .error _ => { s with skipped := s.skipped + 1 }
    | .ok amt =>
      if keyExists s.txns ba d amt (desc.take 500) then
        { s with skipped := s.skipped + 1 }
      else
        let newTxn : BankTransaction :=
          { id := s.nextId, org_id := org, bank_account_id := ba,
            transaction_date := d, description := desc.take 500,
            amount := amt, is_reconciled := false, reconciled_at := none,
            matched_payment := none }
        { txns := s.txns ++ [newTxn],
          nextId := s.nextId + 1,
          imported := s.imported + 1,
          skipped := s.skipped }

def importRows (org ba : ℕ) (rows : List CsvRow) (s : ImportState) : ImportState :=
  rows.foldl (importRowStep org ba) s

/-- Embedding of `ReconciliationService.import_csv`: fails when the bank
account is inactive, otherwise runs the row loop with both counters starting
at zero. -/
def import_csv (org ba : ℕ) (active : Bool) (rows : List CsvRow)
    (txns : List BankTransaction) (nid : ℕ) : Except RecError ImportState :=
  if active then
    .ok (importRows org ba rows
      { txns := txns, nextId := nid, imported := 0, skipped := 0 })
  else .error .bankAccountInactive

/-- A row the loop skips without writing: it is invalid, its amount is not
convertible, or its deduplication key is already present. -/
def SkipsRow (txns : List BankTransaction) (ba : ℕ) : CsvRow → Prop
  | .invalid => True
  | .valid d a desc =>
    money (.pstr (some a)) = .error .cannotConvert ∨
    ∃ amt, money (.pstr (some a)) = .ok amt ∧
      keyExists txns ba d amt (desc.take 500) = true

/-! ## Tenant isolation middleware
(`common/middleware/tenant_context.py`)

A request is abstracted to the facts the middleware reads: whether the path
is org-scoped, whether the user is authenticated, the org id extracted from
the path, the user id, and the superadmin flag.  The environment carries the
short-TTL membership cache and the database membership query, which can
fail.  The contextvar `_current_org_id` is threaded explicitly as the
worker's context value. -/

structure TenantRequest where
  org_scoped : Bool
  authenticated : Bool
  extracted_org : Option ℕ
  user_id : ℕ
  is_superadmin : Bool
deriving DecidableEq

structure MembershipEnv where
  cache : ℕ → ℕ → Option Bool
  dbQuery : ℕ → ℕ → Except Unit Bool

/-- Outcome of one middleware pass, as observable by the caller: whether a
403 `unauthorized_org_access` response was returned, which org id (if any)
was bound into the storage session (`SET LOCAL app.current_org_id`), and the
value of the `_current_org_id` contextvar after the call. -/
structure TenantCallResult where
  forbidden : Bool
  bound_org : Option ℕ
  ctx : Option ℕ
deriving DecidableEq

/-- Embedding of `TenantContextMiddleware._verify_org_membership`:
superadmins short-circuit to true; a cache hit is trusted; otherwise the
database is queried and the result cached; a failing query denies (fail
closed). -/
def verify_org_membership (env : MembershipEnv) (r : TenantRequest) (org : ℕ) :
    Bool × MembershipEnv :=
  if r.is_superadmin then (true, env)
  else
    match env.cache r.user_id org with
    | some b => (b, env)
    | none =>
      match env.dbQuery r.user_id org with
      | .ok b =>
        (b, { env with cache := fun u o =>
          if u = r.user_id ∧ o = org then some b else env.cache u o })
      | .error _ => (false, env)

/-- Embedding of `TenantContextMiddleware.__call__`: non-org-scoped paths,
unauthenticated users and paths without an extractable org id pass through
without binding; a failed membership check returns the 403 response with no
binding; otherwise the org id is bound (`SET LOCAL` plus contextvars) and
the request proceeds.  The contextvar is set on binding and never reset. -/
def tenant_call (env : MembershipEnv) (ctx : Option ℕ) (r : TenantRequest) :
    TenantCallResult × MembershipEnv :=
  if !r.org_scoped then
    ({ forbidden := false, bound_org := none, ctx := ctx }, env)
  else if !r.authenticated then
    ({ forbidden := false, bound_org := none, ctx := ctx }, env)
  else
    match r.extracted_org with
    | none => ({ forbidden := false, bound_org := none, ctx := ctx }, env)
    | some org =>
      let res := verify_org_membership env r org
      if !res.1 then
        ({ forbidden := true, bound_org := none, ctx := ctx }, res.2)
      else
        ({ forbidden := false, bound_org := some org, ctx := some org }, res.2)

/-! ## Payment allocation engine

The allocation service (`PaymentService` in
`apps/banking/services/payment_service.py`) is imported by
`apps/banking/services/__init__.py`, exercised by
`apps/banking/tests/test_allocation_service.py` and called from
`apps/banking/views.py`, but the module's own source is not available here;
the definitions below are modelled from the specification (section 4.3 and
the data-model invariants). -/

inductive DocStatus where
  | draft | sent | approved | partiallyPaid | paid | void
deriving DecidableEq

structure AllocDocument where
  id : ℕ
  status : DocStatus
  total_incl : ℚ
  counterparty : ℕ
deriving DecidableEq

structure AllocPayment where
  id : ℕ
  amount : ℚ
  exchange_rate : ℚ
  counterparty : ℕ
  is_voided : Bool
deriving DecidableEq

structure PaymentAllocation where
  id : ℕ
  payment_id : ℕ
  document_id : ℕ
  allocated_amount : ℚ
  base_allocated_amount : ℚ
deriving DecidableEq

structure AllocState where
  payments : List AllocPayment
  documents : List AllocDocument
  allocations : List PaymentAllocation
  nextAllocId : ℕ
deriving DecidableEq

inductive AllocError where
  | resourceNotFound
  | paymentVoided
  | duplicateBatchDocuments
  | documentNotApproved
  | counterpartyMismatch
  | duplicateAllocation
  | invalidAllocationAmount
  | allocationExceedsPayment
deriving DecidableEq

def allocationsOf (s : AllocState) (pid : ℕ) : List PaymentAllocation :=
  s.allocations.filter (fun a => a.payment_id == pid)

/-- The pre-existing allocation total for a payment. -/
def allocatedSum (s : AllocState) (pid : ℕ) : ℚ :=
  ((allocationsOf s pid).map (fun a => a.allocated_amount)).sum

/-- The cumulative allocation against a document, across payments. -/
def docAllocatedSum (allocations : List PaymentAllocation) (did : ℕ) : ℚ :=
  (((allocations.filter (fun a => a.document_id == did))).map
    (fun a => a.allocated_amount)).sum

/-- Modelled from the spec: the allocation row written for one accepted
batch entry, with `base_allocated_amount = allocated_amount *
payment.exchange_rate` quantized (4 places, round-half-up). -/
def mkAllocation (nid : ℕ) (p : AllocPayment) (did : ℕ) (amt : ℚ) :
    PaymentAllocation :=
  { id := nid, payment_id := p.id, document_id := did,
    allocated_amount := amt,
    base_allocated_amount :=
      ((roundHalfUpZ (amt * p.exchange_rate * 10^4) : ℚ) / 10^4) }

/-- Modelled from the spec: the per-entry validation loop of
`PaymentService.allocate` (source file not available).  Entries are
validated in submitted order; each requires an existing `APPROVED` document
of the same counterparty, no existing allocation for the (payment, document)
pair, a positive amount, and that the running total (pre-existing plus
batch so far) stays within the payment amount, else
`AllocationExceedsPayment`.  The first conflict rejects the whole batch.
Each accepted entry is written with
`base_allocated_amount = allocated_amount * payment.exchange_rate`
quantized. -/
def allocateLoop (s : AllocState) (p : AllocPayment) :
    List (ℕ × ℚ) → ℚ → ℕ → List PaymentAllocation →
    Except AllocError (ℚ × ℕ × List PaymentAllocation)
  | [], total, nid, acc => .ok (total, nid, acc)
  | (did, amt) :: rest, total, nid, acc =>
    match s.documents.find? (fun d => d.id == did) with
    | none => .error .resourceNotFound
    | some d =>
      if d.status ≠ .approved then .error .documentNotApproved
      else if d.counterparty ≠ p.counterparty then .error .counterpartyMismatch
      else if s.allocations.any
          (fun a => a.payment_id == p.id && a.document_id == did) then
        .error .duplicateAllocation
      else if amt ≤ 0 then .error .invalidAllocationAmount
      else if p.amount < total + amt then .error .allocationExceedsPayment
      else
        allocateLoop s p rest (total + amt) (nid + 1)
          (acc ++ [mkAllocation nid p did amt])

/-- Modelled from the spec: `PaymentService.allocate` (source file not
available).  Requires a non-voided payment of the tenant, rejects a batch
containing duplicate document ids, validates the batch in order through
`allocateLoop`, and on success persists every allocation atomically and
recomputes each affected document's status: cumulative allocation equal to
its total makes it `PAID`, less makes it `PARTIALLY_PAID`; the status is
never downgraded. -/
def allocate (s : AllocState) (pid : ℕ) (batch : List (ℕ × ℚ)) :
    Except AllocError AllocState :=
  match s.payments.find? (fun p => p.id == pid) with
  | none => .error .resourceNotFound
  | some p =>
    if p.is_voided then .error .paymentVoided
    else if ¬ (batch.map Prod.fst).Nodup then .error .duplicateBatchDocuments
    else
      match allocateLoop s p batch (allocatedSum s pid) s.nextAllocId [] with
      | .error e => .error e
      | .ok (_, nid, newAllocs) =>
        let allocations' := s.allocations ++ newAllocs
        .ok { payments := s.payments,
              documents := s.documents.map (fun d =>
                if (batch.map Prod.fst).contains d.id then
                  (let c := docAllocatedSum allocations' d.id
                   if c = d.total_incl then { d with status := .paid }
                   else if c < d.total_incl then { d with status := .partiallyPaid }
                   else d)
                else d),
              allocations := allocations',
              nextAllocId := nid }

/-- Modelled from the spec: `PaymentService.unallocate` (source file not
available) deletes the allocation row; the document status is not reverted
automatically. -/
def unallocate (s : AllocState) (aid : ℕ) : Except AllocError AllocState :=
  match s.allocations.find? (fun a => a.id == aid) with
  | none => .error .resourceNotFound
  | some _ =>
    .ok { s with allocations := s.allocations.filter (fun a => !(a.id == aid)) }

/-- An externally triggered allocation operation. -/
inductive AllocOp where
  | alloc : ℕ → List (ℕ × ℚ) → AllocOp
  | unalloc : ℕ → AllocOp

/-- One atomic unit of work: a failed operation rolls back and leaves the
persisted state unchanged. -/
def applyAllocOp (s : AllocState) : AllocOp → AllocState
  | .alloc pid batch =>
    match allocate s pid batch with
    | .ok s' => s'
    | .error _ => s
  | .unalloc aid =>
    match unallocate s aid with
    | .ok s' => s'
    | .error _ => s

/-- The data-model invariant of section 3: payment ids are unique, every
allocation amount is positive, and for every payment the allocation total
stays within the payment amount. -/
def AllocInvariant (s : AllocState) : Prop :=
  (s.payments.map (fun p => p.id)).Nodup ∧
  (∀ a ∈ s.allocations, 0 < a.allocated_amount) ∧
  (∀ p ∈ s.payments, allocatedSum s p.id ≤ p.amount)

/-- The concrete scenario of the spec's testable property: a 500.00 payment
(with two approved 545.00 and 327.00 documents of the same counterparty)
and no allocations yet. -/
def allocC1State : AllocState :=
  { payments := [{ id := 1, amount := 500, exchange_rate := 1,
                   counterparty := 3, is_voided := false }],
    documents := [{ id := 10, status := .approved, total_incl := 545,
                    counterparty := 3 },
                  { id := 20, status := .approved, total_incl := 327,
                    counterparty := 3 }],
    allocations := [],
    nextAllocId := 1 }

/-- Concrete state for the 900.00 transaction / 1000.00 payment scenario:
one unreconciled transaction and one live payment on the same bank account
of the same tenant. -/
def amountMismatchState : BankState :=
  { transactions := [⟨1, 1, 5, 0, [], 900, false, none, none⟩],
    payments := [⟨2, 1, 5, 1000, false, false⟩] }

/-- Concrete state in which payment 10 is already reconciled (it was matched
by transaction 1) while transaction 2 is still unreconciled with the same
amount. -/
def sharedPaymentState : BankState :=
  { transactions := [⟨1, 1, 5, 0, [], 100, true, some 5, some 10⟩,
                     ⟨2, 1, 5, 0, [], 100, false, none, none⟩],
    payments := [⟨10, 1, 5, 100, false, true⟩] }

/-- Concrete state with one clean unreconciled transaction and one
unreconciled payment, matching in amount. -/
def cleanRecState : BankState :=
  { transactions := [⟨2, 1, 5, 0, [], 100, false, none, none⟩],
    payments := [⟨10, 1, 5, 100, false, false⟩] }

/-! ## Theorems -/

theorem roundHalfUpZ_nonneg (x : ℚ) (hx : 0 ≤ x) :
    roundHalfUpZ x = ⌊x + 1/2⌋ := by
  simp [roundHalfUpZ, hx]

theorem roundHalfUpZ_spec (x : ℚ) : RoundsHalfAway x (roundHalfUpZ x) := by
  constructor
  · rcases le_or_lt 0 x with hx | hx
    · rw [roundHalfUpZ_nonneg x hx]
      rw [abs_le]
      constructor
      · have h := Int.floor_le (x + 1/2)
        linarith
      · have h := Int.lt_floor_add_one (x + 1/2)
        linarith
    · have hx' : ¬ (0 ≤ x) := not_le.mpr hx
      simp only [roundHalfUpZ, hx', if_false]
      push_cast
      rw [abs_le]
      have h1 := Int.floor_le (-x + 1/2)
      have h2 := Int.lt_floor_add_one (-x + 1/2)
      constructor <;> linarith
  · intro htie
    rcases le_or_lt 0 x with hx | hx
    · rw [roundHalfUpZ_nonneg x hx] at htie ⊢
      have h1 := Int.floor_le (x + 1/2)
      have h2 := Int.lt_floor_add_one (x + 1/2)
      rcases abs_eq (by norm_num : (0:ℚ) ≤ 1/2) |>.mp htie with h | h
      · linarith
      · have hxn : (⌊x + 1/2⌋ : ℚ) = x + 1/2 := by linarith
        rw [abs_of_nonneg hx, hxn]
        rw [abs_of_nonneg (by linarith : (0:ℚ) ≤ x + 1/2)]
        linarith
    · have hx' : ¬ (0 ≤ x) := not_le.mpr hx
      simp only [roundHalfUpZ, hx', if_false] at htie ⊢
      push_cast at htie ⊢
      have h1 := Int.floor_le (-x + 1/2)
      have h2 := Int.lt_floor_add_one (-x + 1/2)
      rcases abs_eq (by norm_num : (0:ℚ) ≤ 1/2) |>.mp htie with h | h
      · have hxn : (⌊-x + 1/2⌋ : ℚ) = -x + 1/2 := by linarith
        rw [abs_of_nonpos (le_of_lt hx), hxn]
        rw [abs_of_nonpos (by linarith : -(-x + 1/2) ≤ (0:ℚ))]
        linarith
      · linarith

theorem roundHalfEvenZ_spec (x : ℚ) : RoundsHalfEven x (roundHalfEvenZ x) := by
  have hfl := Int.floor_le x
  have hfu := Int.lt_floor_add_one x
  unfold roundHalfEvenZ
  rcases lt_trichotomy (x - (⌊x⌋ : ℚ)) (1/2) with h | h | h
  · simp only [h, if_true]
    constructor
    · rw [abs_le]; constructor <;> linarith
    · intro htie
      rw [abs_of_nonneg (by linarith)] at htie
      linarith
  · have h1 : ¬ (x - (⌊x⌋ : ℚ) < 1/2) := by linarith
    have h2 : ¬ ((1:ℚ)/2 < x - (⌊x⌋ : ℚ)) := by linarith
    simp only [h1, h2, if_false]
    by_cases hpar : ⌊x⌋ % 2 = 0
    · simp only [hpar, if_true]
      constructor
      · rw [abs_of_nonneg (by linarith)]; linarith
      · intro _
        exact Int.even_iff.mpr hpar
    · simp only [hpar, if_false]
      constructor
      · have : x - ((⌊x⌋ : ℚ) + 1) = -(1/2) := by linarith
        rw [show ((⌊x⌋ + 1 : ℤ) : ℚ) = (⌊x⌋ : ℚ) + 1 by push_cast; ring, this,
          abs_neg, abs_of_nonneg (by norm_num : (0:ℚ) ≤ 1/2)]
      · intro _
        rcases Int.even_or_odd ⌊x⌋ with he | ho
        · exact absurd (Int.even_iff.mp he) hpar
        · exact Odd.add_one ho
  · have h1 : ¬ (x - (⌊x⌋ : ℚ) < 1/2) := by linarith
    simp only [h1, h, if_false, if_true]
    constructor
    · rw [show ((⌊x⌋ + 1 : ℤ) : ℚ) = (⌊x⌋ : ℚ) + 1 by push_cast; ring]
      rw [abs_le]; constructor <;> linarith
    · intro htie
      rw [show ((⌊x⌋ + 1 : ℤ) : ℚ) = (⌊x⌋ : ℚ) + 1 by push_cast; ring] at htie
      rw [abs_of_nonpos (by linarith)] at htie
      linarith

theorem quantize4HU_ok {q r : ℚ} (h : quantize4HU q = .ok r) :
    ∃ n : ℤ, r = (n : ℚ) / 10^4 ∧ RoundsHalfAway (q * 10^4) n := by
  simp only [quantize4HU] at h
  split at h
  · cases h
    exact ⟨roundHalfUpZ (q * 10^4), rfl, roundHalfUpZ_spec (q * 10^4)⟩
  · cases h

theorem quantize4HE_ok {q r : ℚ} (h : quantize4HE q = .ok r) :
    ∃ n : ℤ, r = (n : ℚ) / 10^4 ∧ RoundsHalfEven (q * 10^4) n := by
  simp only [quantize4HE] at h
  split at h
  · cases h
    exact ⟨roundHalfEvenZ (q * 10^4), rfl, roundHalfEvenZ_spec (q * 10^4)⟩
  · cases h

theorem money_ok {v : PyNum} {r : ℚ} (h : money v = .ok r) :
    ∃ q : ℚ, numVal v = some q ∧ quantize4HU q = .ok r := by
  cases v with
  | pfloat => cases h
  | pstr o =>
    cases o with
    | none => cases h
    | some q => exact ⟨q, rfl, h⟩
  | pint n => exact ⟨(n : ℚ), rfl, h⟩
  | pdec q => exact ⟨q, rfl, h⟩

theorem money_of_numVal {v : PyNum} {q : ℚ} (h : numVal v = some q) :
    money v = quantize4HU q := by
  cases v with
  | pfloat => cases h
  | pstr o => cases o with
    | none => cases h
    | some q' => cases h; rfl
  | pint n => cases h; rfl
  | pdec q' => cases h; rfl

theorem sum_money_aux_eq (vs : List PyNum) :
    ∀ (qs : List ℚ) (acc : ℚ), moneyList vs = .ok qs →
      sum_money_aux acc vs = .ok (acc + qs.sum) := by
  induction vs with
  | nil =>
    intro qs acc h
    simp only [moneyList, Except.ok.injEq] at h
    subst h
    simp [sum_money_aux]
  | cons v vs ih =>
    intro qs acc h
    simp only [moneyList] at h
    cases hm : money v with
    | error e => rw [hm] at h; cases h
    | ok m =>
      rw [hm] at h
      cases hl : moneyList vs with
      | error e => rw [hl] at h; cases h
      | ok ms =>
        rw [hl] at h
        cases h
        simp only [sum_money_aux, hm]
        rw [ih ms (acc + m) hl]
        rw [List.sum_cons]
        ring_nf

/-- C7: the money constructor rejects every binary-float input with a
`TypeError` (`InvalidAmount`); every string, integer or decimal input that
converts is returned quantized to exactly 4 fractional digits (an integer
coefficient over 10^4) using round-half-up (ties away from zero), and is
returned whenever its quantized coefficient fits the context precision;
inputs with no numeric value fail with an error instead of returning a
value. -/
theorem C7_money_contract :
    (money .pfloat = .error .invalidAmount) ∧
    (∀ (v : PyNum) (q r : ℚ), numVal v = some q → money v = .ok r →
      ∃ n : ℤ, r = (n : ℚ) / 10^4 ∧ RoundsHalfAway (q * 10^4) n) ∧
    (∀ (v : PyNum) (q : ℚ), numVal v = some q →
      (roundHalfUpZ (q * 10^4)).natAbs < 10^28 →
      money v = .ok ((roundHalfUpZ (q * 10^4) : ℚ) / 10^4)) ∧
    (∀ v : PyNum, numVal v = none → ∃ e, money v = .error e) := by
  refine ⟨rfl, ?_, ?_, ?_⟩
  · intro v q r hq hr
    rw [money_of_numVal hq] at hr
    exact quantize4HU_ok hr
  · intro v q hq hn
    rw [money_of_numVal hq]
    simp only [quantize4HU]
    rw [if_pos hn]
  · intro v hv
    cases v with
    | pfloat => exact ⟨.invalidAmount, rfl⟩
    | pstr o => cases o with
      | none => exact ⟨.cannotConvert, rfl⟩
      | some q => cases hv
    | pint n => cases hv
    | pdec q => cases hv

theorem C7_money_contract_witness :
    ∃ n : ℤ, ((3333 : ℚ) / 10^4) = (n : ℚ) / 10^4 ∧
      RoundsHalfAway ((1/3 : ℚ) * 10^4) n :=
  C7_money_contract.2.1 (.pdec (1/3)) (1/3) ((3333 : ℚ) / 10^4) rfl
    (by rw [@money_of_numVal (.pdec (1/3)) _ rfl]; norm_num [quantize4HU, roundHalfUpZ])

/-- C3 counterexample: multiplying the monetary values 0.0001 and 0.5 gives
the exact product 0.00005; the final quantize of `multiply_money` runs
outside the half-up localcontext and rounds this tie with the default
bankers' rounding to 0.0000, whereas re-quantizing with round-half-up (as
the claim states) would give 0.0001. -/
theorem C3_requantize_counterexample :
    multiply_money (.pdec (1/10000)) (.pdec (1/2)) = .ok 0 ∧
    quantize4HU ((1/10000 : ℚ) * (1/2)) = .ok (1/10^4) ∧
    (0 : ℚ) ≠ 1/10^4 := by
  refine ⟨?_, ?_, by norm_num⟩
  · have h1 : money (.pdec (1/10000)) = .ok (1/10000) := by
      rw [@money_of_numVal (.pdec (1/10000)) _ rfl]
      norm_num [quantize4HU, roundHalfUpZ]
    have h2 : money (.pdec (1/2)) = .ok (1/2) := by
      rw [@money_of_numVal (.pdec (1/2)) _ rfl]
      norm_num [quantize4HU, roundHalfUpZ]
    simp only [multiply_money, h1, h2, Bind.bind, Except.bind]
    norm_num [quantize4HE, roundHalfEvenZ]
  · norm_num [quantize4HU, roundHalfUpZ]

/-- C3 amended: every arithmetic operation of the money kernel — add
(`sum_money`), multiply (`multiply_money`), divide (`divide_money`) —
returns its result re-quantized to exactly 4 fractional digits, but the
re-quantization uses the ambient default rounding (round-half-even), not
round-half-up: only the conversion of each operand through `money` rounds
half-up. -/
theorem C3_requantize_half_even :
    (∀ (vs : List PyNum) (qs : List ℚ) (r : ℚ), moneyList vs = .ok qs →
      sum_money vs = .ok r →
      ∃ n : ℤ, r = (n : ℚ) / 10^4 ∧ RoundsHalfEven (qs.sum * 10^4) n) ∧
    (∀ (a b : PyNum) (x y r : ℚ), money a = .ok x → money b = .ok y →
      multiply_money a b = .ok r →
      ∃ n : ℤ, r = (n : ℚ) / 10^4 ∧ RoundsHalfEven (x * y * 10^4) n) ∧
    (∀ (a b : PyNum) (x y r : ℚ), money a = .ok x → money b = .ok y →
      divide_money a b = .ok r →
      ∃ n : ℤ, r = (n : ℚ) / 10^4 ∧ RoundsHalfEven (x / y * 10^4) n) := by
  refine ⟨?_, ?_, ?_⟩
  · intro vs qs r hqs hr
    have haux := sum_money_aux_eq vs qs 0 hqs
    rw [zero_add] at haux
    simp only [sum_money, haux, Bind.bind, Except.bind] at hr
    exact quantize4HE_ok hr
  · intro a b x y r hx hy hr
    simp only [multiply_money, hx, hy, Bind.bind, Except.bind] at hr
    exact quantize4HE_ok hr
  · intro a b x y r hx hy hr
    simp only [divide_money, hx, hy, Bind.bind, Except.bind] at hr
    by_cases hy0 : y = 0
    · rw [if_pos hy0] at hr; cases hr
    · rw [if_neg hy0] at hr
      exact quantize4HE_ok hr

theorem C3_requantize_half_even_witness :
    ∃ n : ℤ, ((1 : ℚ)) = (n : ℚ) / 10^4 ∧
      RoundsHalfEven ((1 : ℚ) * 1 * 10^4) n :=
  C3_requantize_half_even.2.1 (.pint 1) (.pint 1) 1 1 1
    (by rw [@money_of_numVal (.pint 1) _ rfl]; norm_num [quantize4HU, roundHalfUpZ])
    (by rw [@money_of_numVal (.pint 1) _ rfl]; norm_num [quantize4HU, roundHalfUpZ])
    (by
      have h1 : money (.pint 1) = .ok 1 := by
        rw [@money_of_numVal (.pint 1) _ rfl]
        norm_num [quantize4HU, roundHalfUpZ]
      simp only [multiply_money, h1, Bind.bind, Except.bind]
      norm_num [quantize4HE, roundHalfEvenZ])

theorem display_money_of_numVal {v : PyNum} {q : ℚ} (h : numVal v = some q) :
    display_money v =
      if (roundHalfUpZ (q * 10^2)).natAbs < 10^28 then
        .ok (renderFixed2 (decide (q < 0)) (roundHalfUpZ (q * 10^2)).natAbs)
      else .error .cannotConvert := by
  cases v with
  | pfloat => cases h
  | pstr o => cases o with
    | none => cases h
    | some q' => cases h; rfl
  | pint n => cases h; rfl
  | pdec q' => cases h; rfl

theorem natDigitString_mem {n : ℕ} {c : Char} (hc : c ∈ natDigitString n) :
    ∃ d : ℕ, d < 10 ∧ c = digitChar d := by
  unfold natDigitString at hc
  split at hc
  · simp only [List.mem_singleton] at hc
    exact ⟨0, by norm_num, hc⟩
  · simp only [List.mem_map, List.mem_reverse] at hc
    obtain ⟨d, hd, rfl⟩ := hc
    exact ⟨d, Nat.digits_lt_base (by norm_num) hd, rfl⟩

theorem digitChar_ne_comma {d : ℕ} (hd : d < 10) : digitChar d ≠ ',' := by
  interval_cases d <;> decide

theorem renderFixed2_no_comma (b : Bool) (coeff : ℕ) :
    ',' ∉ renderFixed2 b coeff := by
  intro hmem
  unfold renderFixed2 at hmem
  rcases List.mem_append.mp hmem with h | h
  · rcases List.mem_append.mp h with h | h
    · rcases List.mem_append.mp h with h | h
      · rcases List.mem_append.mp h with h | h
        · cases b with
          | false => simp at h
          | true => exact absurd (List.mem_singleton.mp h) (by decide)
        · obtain ⟨d, hd, hc⟩ := natDigitString_mem h
          exact digitChar_ne_comma hd hc.symm
      · exact absurd (List.mem_singleton.mp h) (by decide)
    · split at h
      · rw [List.mem_singleton] at h
        exact digitChar_ne_comma (by norm_num) h.symm
      · simp at h
  · obtain ⟨d, hd, hc⟩ := natDigitString_mem h
    exact digitChar_ne_comma hd hc.symm

theorem natDigitString_single {n : ℕ} (hn : n < 10) :
    natDigitString n = [digitChar n] := by
  unfold natDigitString
  rcases Nat.eq_zero_or_pos n with h0 | hpos
  · subst h0; simp
  · rw [if_neg (Nat.pos_iff_ne_zero.mp hpos)]
    rw [Nat.digits_def' (by norm_num : 1 < 10) hpos]
    rw [Nat.mod_eq_of_lt hn, Nat.div_eq_of_lt hn]
    simp

theorem natDigitString_double {n : ℕ} (h10 : 10 ≤ n) (h100 : n < 100) :
    natDigitString n = [digitChar (n / 10), digitChar (n % 10)] := by
  have hpos : 0 < n := by omega
  unfold natDigitString
  rw [if_neg (by omega)]
  rw [Nat.digits_def' (by norm_num : 1 < 10) hpos]
  have hq10 : 0 < n / 10 := Nat.div_pos h10 (by norm_num)
  have hqlt : n / 10 < 10 := by omega
  rw [Nat.digits_def' (by norm_num : 1 < 10) hq10]
  rw [Nat.mod_eq_of_lt hqlt, Nat.div_eq_of_lt hqlt]
  simp

theorem renderFixed2_frac (b : Bool) (coeff : ℕ) :
    ∃ pre : List Char, renderFixed2 b coeff =
      pre ++ ['.', digitChar (coeff % 100 / 10), digitChar (coeff % 100 % 10)] := by
  refine ⟨(if b then ['-'] else []) ++ natDigitString (coeff / 100), ?_⟩
  unfold renderFixed2
  have hrem : coeff % 100 < 100 := Nat.mod_lt _ (by norm_num)
  by_cases h : coeff % 100 < 10
  · rw [if_pos h, natDigitString_single h,
      Nat.div_eq_of_lt h, Nat.mod_eq_of_lt h]
    simp [digitChar]
  · rw [if_neg h, natDigitString_double (le_of_not_lt h) hrem]
    simp

/-- C9 counterexample: displaying the monetary value 1000 yields the
seven-character string 1000.00, which contains no grouping separator,
refuting the claim that values of 1000 or more are rendered with thousands
separators. -/
theorem C9_no_grouping_counterexample :
    display_money (.pint 1000) = .ok ['1', '0', '0', '0', '.', '0', '0'] ∧
    ',' ∉ (['1', '0', '0', '0', '.', '0', '0'] : List Char) := by
  constructor
  · rw [@display_money_of_numVal (.pint 1000) _ rfl]
    have hn : roundHalfUpZ (((1000 : ℤ) : ℚ) * 10^2) = 100000 := by
      norm_num [roundHalfUpZ]
    have hq : (decide (((1000 : ℤ) : ℚ) < 0)) = false := by
      simp only [decide_eq_false_iff_not]
      norm_num
    rw [hn, hq]
    norm_num [renderFixed2, natDigitString, Nat.digits_def']
    decide
  · decide

/-- C9 amended: for every non-float monetary input whose 2-place
quantization fits the context precision, the display formatter returns the
value rendered with exactly 2 fractional digits using round-half-up (ties
away from zero), but without thousands separators: no grouping character
occurs in the output. -/
theorem C9_display_contract :
    ∀ (v : PyNum) (q : ℚ), numVal v = some q →
      (roundHalfUpZ (q * 10^2)).natAbs < 10^28 →
      ∃ s : List Char,
        display_money v = .ok s ∧
        s = renderFixed2 (decide (q < 0)) (roundHalfUpZ (q * 10^2)).natAbs ∧
        RoundsHalfAway (q * 10^2) (roundHalfUpZ (q * 10^2)) ∧
        ',' ∉ s ∧
        (∃ pre : List Char, s = pre ++ ['.',
          digitChar ((roundHalfUpZ (q * 10^2)).natAbs % 100 / 10),
          digitChar ((roundHalfUpZ (q * 10^2)).natAbs % 100 % 10)]) := by
  intro v q hq hn
  refine ⟨renderFixed2 (decide (q < 0)) (roundHalfUpZ (q * 10^2)).natAbs,
    ?_, rfl, roundHalfUpZ_spec _, renderFixed2_no_comma _ _,
    renderFixed2_frac _ _⟩
  rw [display_money_of_numVal hq, if_pos hn]

theorem C9_display_contract_witness :
    ∃ s : List Char,
      display_money (.pdec (201/2)) = .ok s ∧
      s = renderFixed2 (decide ((201/2 : ℚ) < 0))
        (roundHalfUpZ ((201/2 : ℚ) * 10^2)).natAbs ∧
      RoundsHalfAway ((201/2 : ℚ) * 10^2) (roundHalfUpZ ((201/2 : ℚ) * 10^2)) ∧
      ',' ∉ s ∧
      (∃ pre : List Char, s = pre ++ ['.',
        digitChar ((roundHalfUpZ ((201/2 : ℚ) * 10^2)).natAbs % 100 / 10),
        digitChar ((roundHalfUpZ ((201/2 : ℚ) * 10^2)).natAbs % 100 % 10)]) :=
  C9_display_contract (.pdec (201/2)) (201/2) rfl (by norm_num [roundHalfUpZ])

/-- C2: for every authenticated actor and target tenant on an org-scoped
path, a failed membership check — cached denial, database denial, or a
database error — yields the 403 `unauthorized_org_access` response and no
binding (fail closed); a superadmin bypasses the membership check but the
target tenant id is still bound; and whenever a tenant id is bound it is the
one extracted from the path and the membership verification returned
true. -/
theorem C2_tenant_binding_fail_closed :
    (∀ (env : MembershipEnv) (c : Option ℕ) (r : TenantRequest) (org : ℕ),
      r.org_scoped = true → r.authenticated = true →
      r.extracted_org = some org → r.is_superadmin = false →
      (env.cache r.user_id org = some false ∨
        (env.cache r.user_id org = none ∧ env.dbQuery r.user_id org = .ok false) ∨
        (env.cache r.user_id org = none ∧
          env.dbQuery r.user_id org = .error ())) →
      (tenant_call env c r).1.forbidden = true ∧
      (tenant_call env c r).1.bound_org = none) ∧
    (∀ (env : MembershipEnv) (c : Option ℕ) (r : TenantRequest) (org : ℕ),
      r.org_scoped = true → r.authenticated = true →
      r.extracted_org = some org → r.is_superadmin = true →
      (tenant_call env c r).1.forbidden = false ∧
      (tenant_call env c r).1.bound_org = some org) ∧
    (∀ (env : MembershipEnv) (c : Option ℕ) (r : TenantRequest) (org : ℕ),
      (tenant_call env c r).1.bound_org = some org →
      r.extracted_org = some org ∧
      (verify_org_membership env r org).1 = true) := by
  refine ⟨?_, ?_, ?_⟩
  · intro env c r org hsc hauth hex hsup hden
    have hver : (verify_org_membership env r org).1 = false := by
      rcases hden with h | ⟨h1, h2⟩ | ⟨h1, h2⟩
      · simp [verify_org_membership, hsup, h]
      · simp [verify_org_membership, hsup, h1, h2]
      · simp [verify_org_membership, hsup, h1, h2]
    constructor <;> simp [tenant_call, hsc, hauth, hex, hver]
  · intro env c r org hsc hauth hex hsup
    have hver : (verify_org_membership env r org).1 = true := by
      simp [verify_org_membership, hsup]
    constructor <;> simp [tenant_call, hsc, hauth, hex, hver]
  · intro env c r org hbound
    cases hsc : r.org_scoped with
    | false => simp [tenant_call, hsc] at hbound
    | true =>
      cases hauth : r.authenticated with
      | false => simp [tenant_call, hsc, hauth] at hbound
      | true =>
        cases hex : r.extracted_org with
        | none => simp [tenant_call, hsc, hauth, hex] at hbound
        | some o =>
          cases hver : (verify_org_membership env r o).1 with
          | false => simp [tenant_call, hsc, hauth, hex, hver] at hbound
          | true =>
            simp only [tenant_call, hsc, hauth, hex, hver, Bool.not_true,
              Bool.not_false, Bool.false_eq_true, if_false, if_true,
              Option.some.injEq] at hbound
            subst hbound
            exact ⟨rfl, hver⟩

theorem C2_tenant_binding_fail_closed_witness :
    ((tenant_call
        { cache := fun _ _ => some false, dbQuery := fun _ _ => .ok true }
        none
        { org_scoped := true, authenticated := true, extracted_org := some 9,
          user_id := 4, is_superadmin := false }).1.forbidden = true ∧
      (tenant_call
        { cache := fun _ _ => some false, dbQuery := fun _ _ => .ok true }
        none
        { org_scoped := true, authenticated := true, extracted_org := some 9,
          user_id := 4, is_superadmin := false }).1.bound_org = none) :=
  C2_tenant_binding_fail_closed.1 _ none _ 9 rfl rfl rfl rfl (Or.inl rfl)

/-- C8 counterexample: a worker whose context is initially empty handles a
request that binds tenant 7; after the unit of work completes the
contextvar still holds tenant 7 — the next request on the same worker
observes it before any new binding, so the context observed is not
empty. -/
theorem C8_context_leak_counterexample :
    (tenant_call
        { cache := fun _ _ => some true, dbQuery := fun _ _ => .ok true }
        none
        { org_scoped := true, authenticated := true, extracted_org := some 7,
          user_id := 1, is_superadmin := false }).1.ctx = some 7 ∧
      some 7 ≠ (none : Option ℕ) := by
  exact ⟨rfl, by decide⟩

/-- C8 amended: the middleware never clears the contextvar: a request that
binds leaves the bound tenant id in the worker's context after the response,
and a request that does not bind leaves whatever value was already there —
request-scoping therefore holds only if the runtime gives each request a
fresh context, not by virtue of this code. -/
theorem C8_context_binding_persists :
    ∀ (env : MembershipEnv) (c : Option ℕ) (r : TenantRequest),
      ((tenant_call env c r).1.bound_org = none →
        (tenant_call env c r).1.ctx = c) ∧
      (∀ o : ℕ, (tenant_call env c r).1.bound_org = some o →
        (tenant_call env c r).1.ctx = some o) := by
  intro env c r
  cases hsc : r.org_scoped with
  | false => constructor <;> simp [tenant_call, hsc]
  | true =>
    cases hauth : r.authenticated with
    | false => constructor <;> simp [tenant_call, hsc, hauth]
    | true =>
      cases hex : r.extracted_org with
      | none => constructor <;> simp [tenant_call, hsc, hauth, hex]
      | some o =>
        cases hver : (verify_org_membership env r o).1 with
        | false => constructor <;> simp [tenant_call, hsc, hauth, hex, hver]
        | true =>
          constructor
          · simp [tenant_call, hsc, hauth, hex, hver]
          · intro o' h
            simp only [tenant_call, hsc, hauth, hex, hver, Bool.not_true,
              Bool.not_false, Bool.false_eq_true, if_false, if_true,
              Option.some.injEq] at h ⊢
            rw [h]

theorem C8_context_binding_persists_witness :
    (tenant_call
        { cache := fun _ _ => some true, dbQuery := fun _ _ => .ok true }
        (some 3)
        { org_scoped := true, authenticated := true, extracted_org := some 7,
          user_id := 1, is_superadmin := false }).1.ctx = some 7 :=
  (C8_context_binding_persists _ (some 3) _).2 7 rfl

/-- C4 amended: given a transaction and payment that pass the preceding
checks (transaction exists and is unreconciled, payment exists, is not
voided, same bank account), `reconcile` fails `AmountMismatch` exactly when
the amounts differ by more than 1.00 — the tolerance is the fixed local
constant 1.00 of `reconcile`, not a caller-supplied value (only
`suggest_matches` takes a tolerance argument); hence a 900.00 transaction
against a 1000.00 payment always fails. -/
theorem C4_amount_mismatch_fixed_tolerance :
    ∀ (s : BankState) (org tid pid now : ℕ)
      (t : BankTransaction) (p : Payment),
      findTxn s org tid = some t → t.is_reconciled = false →
      findPayment s org pid = some p → p.is_voided = false →
      p.bank_account_id = t.bank_account_id →
      (reconcile s org tid pid now = .error .amountMismatch ↔
        1 < |t.amount - p.amount|) := by
  intro s org tid pid now t p ht hrec hp hv hba
  by_cases hlt : 1 < |t.amount - p.amount| <;>
    simp [reconcile, ht, hp, hrec, hv, hba, hlt]

theorem C4_amount_mismatch_fixed_tolerance_witness :
    (reconcile amountMismatchState 1 1 2 0 = .error .amountMismatch ↔
      1 < |(900 : ℚ) - 1000|) :=
  C4_amount_mismatch_fixed_tolerance amountMismatchState 1 1 2 0
    ⟨1, 1, 5, 0, [], 900, false, none, none⟩ ⟨2, 1, 5, 1000, false, false⟩
    rfl rfl rfl rfl rfl

/-- C4 counterexample: reconciling the 900.00 transaction to the 1000.00
payment fails `AmountMismatch` — and `reconcile` takes no tolerance
argument, so no caller-supplied tolerance of 150.00 can make this call
succeed, refuting the claim's success branch. -/
theorem C4_no_caller_tolerance_counterexample :
    reconcile amountMismatchState 1 1 2 0 = .error .amountMismatch := by
  have h : (1 : ℚ) < |(900 : ℚ) - 1000| := by
    rw [show (900 : ℚ) - 1000 = -100 by norm_num, abs_neg,
      abs_of_nonneg (by norm_num : (0:ℚ) ≤ 100)]
    norm_num
  have ht : findTxn amountMismatchState 1 1 =
      some ⟨1, 1, 5, 0, [], 900, false, none, none⟩ := rfl
  have hp : findPayment amountMismatchState 1 2 =
      some ⟨2, 1, 5, 1000, false, false⟩ := rfl
  simp [reconcile, ht, hp, h]

theorem importRowStep_skips {org ba : ℕ} {s : ImportState} {r : CsvRow}
    (h : SkipsRow s.txns ba r) :
    importRowStep org ba s r = { s with skipped := s.skipped + 1 } := by
  cases r with
  | invalid => rfl
  | valid d a desc =>
    rcases h with h | ⟨amt, ha, hk⟩
    · simp [importRowStep, h]
    · simp [importRowStep, ha, hk]

theorem importRowStep_txns_mono {org ba : ℕ} {s : ImportState} {r : CsvRow}
    {t : BankTransaction} (ht : t ∈ s.txns) :
    t ∈ (importRowStep org ba s r).txns := by
  cases r with
  | invalid => exact ht
  | valid d a desc =>
    cases hm : money (.pstr (some a)) with
    | error e => simp [importRowStep, hm]; exact ht
    | ok amt =>
      simp only [importRowStep, hm]
      split
      · exact ht
      · exact List.mem_append_left _ ht

theorem importRows_txns_mono {org ba : ℕ} (rows : List CsvRow) :
    ∀ {s : ImportState} {t : BankTransaction}, t ∈ s.txns →
      t ∈ (importRows org ba rows s).txns := by
  induction rows with
  | nil => intro s t ht; exact ht
  | cons r rest ih =>
    intro s t ht
    exact ih (importRowStep_txns_mono ht)

theorem keyExists_of_mem {txns : List BankTransaction} {ba d : ℕ} {a : ℚ}
    {desc : List Char} {t : BankTransaction} (ht : t ∈ txns)
    (h1 : t.bank_account_id = ba) (h2 : t.transaction_date = d)
    (h3 : t.amount = a) (h4 : t.description = desc) :
    keyExists txns ba d a desc = true := by
  rw [keyExists, List.any_eq_true]
  exact ⟨t, ht, by simp [h1, h2, h3, h4]⟩

theorem exists_of_keyExists {txns : List BankTransaction} {ba d : ℕ} {a : ℚ}
    {desc : List Char} (h : keyExists txns ba d a desc = true) :
    ∃ t ∈ txns, t.bank_account_id = ba ∧ t.transaction_date = d ∧
      t.amount = a ∧ t.description = desc := by
  rw [keyExists, List.any_eq_true] at h
  obtain ⟨t, ht, hp⟩ := h
  simp only [Bool.and_eq_true, beq_iff_eq] at hp
  exact ⟨t, ht, hp.1.1.1, hp.1.1.2, hp.1.2, hp.2⟩

theorem SkipsRow_mono {txns txns' : List BankTransaction} {ba : ℕ}
    {r : CsvRow} (hsub : ∀ t ∈ txns, t ∈ txns')
    (h : SkipsRow txns ba r) : SkipsRow txns' ba r := by
  cases r with
  | invalid => trivial
  | valid d a desc =>
    rcases h with h | ⟨amt, ha, hk⟩
    · exact Or.inl h
    · refine Or.inr ⟨amt, ha, ?_⟩
      obtain ⟨t, ht, h1, h2, h3, h4⟩ := exists_of_keyExists hk
      exact keyExists_of_mem (hsub t ht) h1 h2 h3 h4

theorem importRows_key_present {org ba : ℕ} (rows : List CsvRow) :
    ∀ (s : ImportState) (r : CsvRow), r ∈ rows →
      SkipsRow (importRows org ba rows s).txns ba r := by
  induction rows with
  | nil => intro s r hr; cases hr
  | cons r0 rest ih =>
    intro s r hr
    rcases List.mem_cons.mp hr with rfl | hr
    · have hstep : SkipsRow (importRowStep org ba s r).txns ba r := by
        cases r with
        | invalid => trivial
        | valid d a desc =>
          cases hm : money (.pstr (some a)) with
          | error e =>
            cases e with
            | cannotConvert => exact Or.inl hm
            | invalidAmount =>
              exfalso
              rw [@money_of_numVal (.pstr (some a)) _ rfl] at hm
              simp only [quantize4HU] at hm
              split at hm <;> cases hm
            | divideByZero =>
              exfalso
              rw [@money_of_numVal (.pstr (some a)) _ rfl] at hm
              simp only [quantize4HU] at hm
              split at hm <;> cases hm
          | ok amt =>
            refine Or.inr ⟨amt, hm, ?_⟩
            simp only [importRowStep, hm]
            split
            · next hk => exact hk
            · exact keyExists_of_mem
                (List.mem_append_right _ (List.mem_singleton_self _))
                rfl rfl rfl rfl
      exact SkipsRow_mono (fun t ht => importRows_txns_mono rest ht) hstep
    · exact ih (importRowStep org ba s r0) r hr

theorem importRows_all_skip {org ba : ℕ} (rows : List CsvRow) :
    ∀ (s : ImportState), (∀ r ∈ rows, SkipsRow s.txns ba r) →
      importRows org ba rows s = { s with skipped := s.skipped + rows.length } := by
  induction rows with
  | nil => intro s _; rfl
  | cons r0 rest ih =>
    intro s hall
    have h0 : SkipsRow s.txns ba r0 := hall r0 (List.mem_cons_self _ _)
    have hstep : importRowStep org ba s r0 = { s with skipped := s.skipped + 1 } :=
      importRowStep_skips h0
    show importRows org ba rest (importRowStep org ba s r0) = _
    rw [hstep]
    rw [ih { s with skipped := s.skipped + 1 }
      (fun r hr => hall r (List.mem_cons_of_mem _ hr))]
    simp only [List.length_cons]
    congr 1
    omega

/-- C5: the import deduplicates on the key (bank account, transaction date,
quantized amount, description truncated to 500) — a row whose key exists is
skipped, not an error — so re-importing an identical batch is idempotent:
with the counters reset the way `import_csv` starts every call, the second
run reports zero imported and all rows skipped, and neither the stored
transactions nor the id sequence change. -/
theorem C5_reimport_idempotent :
    ∀ (org ba nid : ℕ) (rows : List CsvRow) (txns : List BankTransaction),
      import_csv org ba true rows txns nid =
        .ok (importRows org ba rows
          { txns := txns, nextId := nid, imported := 0, skipped := 0 }) ∧
      importRows org ba rows
        { txns := (importRows org ba rows
            { txns := txns, nextId := nid, imported := 0, skipped := 0 }).txns,
          nextId := (importRows org ba rows
            { txns := txns, nextId := nid, imported := 0, skipped := 0 }).nextId,
          imported := 0, skipped := 0 } =
      { txns := (importRows org ba rows
          { txns := txns, nextId := nid, imported := 0, skipped := 0 }).txns,
        nextId := (importRows org ba rows
          { txns := txns, nextId := nid, imported := 0, skipped := 0 }).nextId,
        imported := 0, skipped := rows.length } := by
  intro org ba nid rows txns
  constructor
  · rfl
  · have h2 := @importRows_all_skip org ba rows
      { txns := (importRows org ba rows
          { txns := txns, nextId := nid, imported := 0, skipped := 0 }).txns,
        nextId := (importRows org ba rows
          { txns := txns, nextId := nid, imported := 0, skipped := 0 }).nextId,
        imported := 0, skipped := 0 }
      (fun r hr => @importRows_key_present org ba rows
        { txns := txns, nextId := nid, imported := 0, skipped := 0 } r hr)
    rw [h2]
    norm_num

theorem list_map_id_of {α : Type} (l : List α) (f : α → α)
    (h : ∀ a ∈ l, f a = a) : l.map f = l := by
  induction l with
  | nil => rfl
  | cons a l ih =>
    simp only [List.map_cons]
    rw [h a (List.mem_cons_self a l),
      ih (fun b hb => h b (List.mem_cons_of_mem a hb))]

theorem findTxn_fields {s : BankState} {org tid : ℕ} {t : BankTransaction}
    (h : findTxn s org tid = some t) :
    t ∈ s.transactions ∧ t.id = tid ∧ t.org_id = org := by
  have hm := List.mem_of_find?_eq_some h
  have hp := List.find?_some h
  simp only [Bool.and_eq_true, beq_iff_eq] at hp
  exact ⟨hm, hp.1, hp.2⟩

theorem findPayment_fields {s : BankState} {org pid : ℕ} {p : Payment}
    (h : findPayment s org pid = some p) :
    p ∈ s.payments ∧ p.id = pid ∧ p.org_id = org := by
  have hm := List.mem_of_find?_eq_some h
  have hp := List.find?_some h
  simp only [Bool.and_eq_true, beq_iff_eq] at hp
  exact ⟨hm, hp.1, hp.2⟩

theorem txnReconciled_id (t : BankTransaction) (pid now : ℕ) :
    (txnReconciled t pid now).id = t.id := rfl

theorem paySet_id (b : Bool) (p : Payment) : (paySet b p).id = p.id := rfl

theorem find?_txn_update_found (l : List BankTransaction) (tid org : ℕ)
    (t t' : BankTransaction)
    (h : l.find? (fun u => u.id == tid && u.org_id == org) = some t)
    (hid : t'.id = t.id) (horg : t'.org_id = t.org_id) :
    (l.map (fun u => if u.id == t.id then t' else u)).find?
      (fun u => u.id == tid && u.org_id == org) = some t' := by
  have hp := List.find?_some h
  simp only [Bool.and_eq_true, beq_iff_eq] at hp
  have hp' : (t'.id == tid && t'.org_id == org) = true := by
    simp [hid, horg, hp.1, hp.2]
  induction l with
  | nil => cases h
  | cons u l ih =>
    cases hu : (u.id == tid && u.org_id == org) with
    | true =>
      simp only [List.find?_cons, hu] at h
      cases h
      simp only [List.map_cons, beq_self_eq_true, if_true, List.find?_cons, hp']
    | false =>
      simp only [List.find?_cons, hu] at h
      simp only [List.map_cons]
      by_cases hid2 : u.id = t.id
      · simp only [hid2, beq_self_eq_true, if_true, List.find?_cons, hp']
      · rw [if_neg (by simpa using hid2)]
        simp only [List.find?_cons, hu]
        exact ih h

theorem find?_txn_update_other (l : List BankTransaction) (tid org uid : ℕ)
    (t t' : BankTransaction)
    (h : l.find? (fun u => u.id == tid && u.org_id == org) = some t)
    (hne : t'.id ≠ tid) (htu : t.id ≠ uid) :
    (l.map (fun u => if u.id == uid then t' else u)).find?
      (fun u => u.id == tid && u.org_id == org) = some t := by
  have hf : ((fun u : BankTransaction => u.id == tid && u.org_id == org) t') = false := by
    simp only [Bool.and_eq_false_iff, beq_eq_false_iff_ne, ne_eq]
    exact Or.inl hne
  induction l with
  | nil => cases h
  | cons u l ih =>
    cases hu : (u.id == tid && u.org_id == org) with
    | true =>
      simp only [List.find?_cons, hu] at h
      cases h
      simp only [List.map_cons]
      rw [if_neg (by simpa using htu)]
      simp only [List.find?_cons, hu]
    | false =>
      simp only [List.find?_cons, hu] at h
      simp only [List.map_cons]
      by_cases hid2 : u.id = uid
      · simp only [hid2, beq_self_eq_true, if_true, List.find?_cons, hf]
        exact ih h
      · rw [if_neg (by simpa using hid2)]
        simp only [List.find?_cons, hu]
        exact ih h

theorem txnCleared_reconciled (t : BankTransaction) (pid now : ℕ)
    (h1 : t.is_reconciled = false) (h2 : t.reconciled_at = none)
    (h3 : t.matched_payment = none) :
    txnCleared (txnReconciled t pid now) = t := by
  obtain ⟨i1, o1, b1, d1, e1, a1, r1, c1, m1⟩ := t
  simp only at h1 h2 h3
  subst h1 h2 h3
  rfl

theorem paySet_false_true (p : Payment) (h : p.is_reconciled = false) :
    paySet false (paySet true p) = p := by
  obtain ⟨i1, o1, b1, a1, v1, r1⟩ := p
  simp only at h
  subst h
  rfl

/-- C6 amended: reconcile followed by unreconcile of the same transaction
restores both entities exactly, provided the matched payment was not already
reconciled beforehand (and the unreconciled transaction carried no stale
reconciliation fields, as holds for every transaction created by import or
cleared by unreconcile).  Without the proviso the round trip fails — see the
counterexample, where the payment was already reconciled to another
transaction and ends up unreconciled. -/
theorem C6_reconcile_unreconcile_roundtrip :
    ∀ (s : BankState) (org tid pid now : ℕ)
      (t : BankTransaction) (p : Payment),
      findTxn s org tid = some t →
      (∀ u ∈ s.transactions, u.id = t.id → u = t) →
      t.is_reconciled = false → t.reconciled_at = none →
      t.matched_payment = none →
      findPayment s org pid = some p →
      (∀ q ∈ s.payments, q.id = p.id → q = p) →
      p.is_voided = false → p.is_reconciled = false →
      p.bank_account_id = t.bank_account_id →
      |t.amount - p.amount| ≤ 1 →
      ∃ s1 t1 s2 t2,
        reconcile s org tid pid now = .ok (s1, t1) ∧
        unreconcile s1 org tid = .ok (s2, t2) ∧
        s2 = s ∧ t2 = t := by
  intro s org tid pid now t p ht huniq hrec hrat hmp hp hpuniq hpv hpr hba hamt
  have hpfields := findPayment_fields hp
  have hnotlt : ¬ (1 < |t.amount - p.amount|) := not_lt.mpr hamt
  have hrecEq : reconcile s org tid pid now = .ok
      ({ transactions := s.transactions.map
           (fun u => if u.id == t.id then txnReconciled t pid now else u),
         payments := s.payments.map
           (fun q => if q.id == p.id then paySet true q else q) },
       txnReconciled t pid now) := by
    simp [reconcile, ht, hp, hrec, hpv, hba, hnotlt, txnReconciled, paySet]
  have hfind1 : (s.transactions.map
        (fun u => if u.id == t.id then txnReconciled t pid now else u)).find?
      (fun u => u.id == tid && u.org_id == org) =
      some (txnReconciled t pid now) :=
    find?_txn_update_found s.transactions tid org t _ ht rfl rfl
  have hunrecEq : unreconcile
      { transactions := s.transactions.map
          (fun u => if u.id == t.id then txnReconciled t pid now else u),
        payments := s.payments.map
          (fun q => if q.id == p.id then paySet true q else q) } org tid =
      .ok ({ transactions := (s.transactions.map
               (fun u => if u.id == t.id then txnReconciled t pid now else u)).map
               (fun u => if u.id == (txnReconciled t pid now).id then
                  txnCleared (txnReconciled t pid now) else u),
             payments := (s.payments.map
               (fun q => if q.id == p.id then paySet true q else q)).map
               (fun q => if q.id == pid then paySet false q else q) },
           txnCleared (txnReconciled t pid now)) := by
    simp only [unreconcile, findTxn, hfind1]
    rfl
  refine ⟨_, _, _, _, hrecEq, hunrecEq, ?_, ?_⟩
  · have e1 : (s.transactions.map
        (fun u => if u.id == t.id then txnReconciled t pid now else u)).map
        (fun u => if u.id == (txnReconciled t pid now).id then
          txnCleared (txnReconciled t pid now) else u) = s.transactions := by
      rw [List.map_map]
      apply list_map_id_of
      intro u hu
      simp only [Function.comp_apply]
      by_cases hid : u.id = t.id
      · have hut : u = t := huniq u hu hid
        subst hut
        have hinner : (if u.id == u.id then txnReconciled u pid now else u) =
            txnReconciled u pid now := by
          rw [if_pos (beq_self_eq_true _)]
        rw [hinner]
        have houter : (if (txnReconciled u pid now).id ==
              (txnReconciled u pid now).id then
              txnCleared (txnReconciled u pid now)
            else txnReconciled u pid now) =
            txnCleared (txnReconciled u pid now) := by
          rw [if_pos (beq_self_eq_true _)]
        rw [houter]
        exact txnCleared_reconciled u pid now hrec hrat hmp
      · have hinner : (if u.id == t.id then txnReconciled t pid now else u) =
            u := by
          rw [if_neg (by simpa using hid)]
        rw [hinner]
        rw [if_neg (by
          rw [txnReconciled_id]
          simpa using hid)]
    have e2 : (s.payments.map
        (fun q => if q.id == p.id then paySet true q else q)).map
        (fun q => if q.id == pid then paySet false q else q) = s.payments := by
      rw [List.map_map]
      apply list_map_id_of
      intro q hq
      simp only [Function.comp_apply]
      by_cases hid : q.id = p.id
      · have hqp : q = p := hpuniq q hq hid
        subst hqp
        have hinner : (if q.id == q.id then paySet true q else q) =
            paySet true q := by
          rw [if_pos (beq_self_eq_true _)]
        rw [hinner]
        have houter : (if (paySet true q).id == pid then
              paySet false (paySet true q) else paySet true q) =
            paySet false (paySet true q) := by
          rw [if_pos (by rw [paySet_id]; simp [hpfields.2.1])]
        rw [houter]
        exact paySet_false_true q hpr
      · have hinner : (if q.id == p.id then paySet true q else q) = q := by
          rw [if_neg (by simpa using hid)]
        rw [hinner]
        rw [if_neg (by
          rw [← hpfields.2.1]
          simpa using hid)]
    rw [e1, e2]
  · exact txnCleared_reconciled t pid now hrec hrat hmp

theorem C6_reconcile_unreconcile_roundtrip_witness :
    ∃ s1 t1 s2 t2,
      reconcile cleanRecState 1 2 10 7 = .ok (s1, t1) ∧
      unreconcile s1 1 2 = .ok (s2, t2) ∧
      s2 = cleanRecState ∧
      t2 = (⟨2, 1, 5, 0, [], 100, false, none, none⟩ : BankTransaction) :=
  C6_reconcile_unreconcile_roundtrip cleanRecState 1 2 10 7
    ⟨2, 1, 5, 0, [], 100, false, none, none⟩ ⟨10, 1, 5, 100, false, false⟩
    rfl
    (by intro u hu h; simpa [cleanRecState] using hu)
    rfl rfl rfl rfl
    (by intro q hq h; simpa [cleanRecState] using hq)
    rfl rfl rfl
    (by norm_num)

/-- C6 counterexample: in a reachable state where payment 10 is already
reconciled (it was matched by transaction 1), reconciling the unreconciled
transaction 2 to payment 10 and then unreconciling transaction 2 leaves
payment 10 with `is_reconciled = false`, different from its pre-reconcile
value true — the round trip does not restore the payment. -/
theorem C6_roundtrip_counterexample :
    ∃ s1 t1 s2 t2,
      reconcile sharedPaymentState 1 2 10 7 = .ok (s1, t1) ∧
      unreconcile s1 1 2 = .ok (s2, t2) ∧
      s2.payments ≠ sharedPaymentState.payments := by
  refine ⟨{ transactions := [⟨1, 1, 5, 0, [], 100, true, some 5, some 10⟩,
              ⟨2, 1, 5, 0, [], 100, true, some 7, some 10⟩],
            payments := [⟨10, 1, 5, 100, false, true⟩] },
          ⟨2, 1, 5, 0, [], 100, true, some 7, some 10⟩,
          { transactions := [⟨1, 1, 5, 0, [], 100, true, some 5, some 10⟩,
              ⟨2, 1, 5, 0, [], 100, false, none, none⟩],
            payments := [⟨10, 1, 5, 100, false, false⟩] },
          ⟨2, 1, 5, 0, [], 100, false, none, none⟩, ?_, ?_, ?_⟩
  · have ht : findTxn sharedPaymentState 1 2 =
        some ⟨2, 1, 5, 0, [], 100, false, none, none⟩ := rfl
    have hp : findPayment sharedPaymentState 1 10 =
        some ⟨10, 1, 5, 100, false, true⟩ := rfl
    have hn : ¬ ((1 : ℚ) < |(100 : ℚ) - 100|) := by norm_num
    simp [reconcile, ht, hp, hn, txnReconciled, paySet]
    rw [if_neg (by norm_num : ¬ ((1 : ℚ) < 0))]
    rfl
  · rfl
  · simp [sharedPaymentState]

/-- C10: `reconcile` never checks the payment's own `is_reconciled` flag, so
an unreconciled transaction reconciles successfully to a payment that is
already reconciled (already matched by another transaction); a later
`unreconcile` of the other transaction clears the payment's flag while this
transaction still references the payment. -/
theorem C10_reconcile_ignores_payment_flag :
    ∀ (s : BankState) (org tid1 tid2 pid now : ℕ)
      (t1 t2 : BankTransaction) (p : Payment),
      findTxn s org tid1 = some t1 →
      findTxn s org tid2 = some t2 →
      t1.id ≠ t2.id →
      t1.is_reconciled = true → t1.matched_payment = some pid →
      t2.is_reconciled = false →
      findPayment s org pid = some p →
      p.is_voided = false → p.is_reconciled = true →
      p.bank_account_id = t2.bank_account_id →
      |t2.amount - p.amount| ≤ 1 →
      ∃ s1, reconcile s org tid2 pid now = .ok (s1, txnReconciled t2 pid now) ∧
        ∃ s2 t1c, unreconcile s1 org tid1 = .ok (s2, t1c) ∧
          (∀ q ∈ s2.payments, q.id = pid → q.is_reconciled = false) ∧
          ∃ u ∈ s2.transactions, u.id = t2.id ∧ u.is_reconciled = true ∧
            u.matched_payment = some pid := by
  intro s org tid1 tid2 pid now t1 t2 p hf1 hf2 hne h1r h1m h2r hp hpv hpr
    hba hamt
  have hnotlt : ¬ (1 < |t2.amount - p.amount|) := not_lt.mpr hamt
  have ht1fields := findTxn_fields hf1
  have ht2fields := findTxn_fields hf2
  have hrecEq : reconcile s org tid2 pid now = .ok
      ({ transactions := s.transactions.map
           (fun u => if u.id == t2.id then txnReconciled t2 pid now else u),
         payments := s.payments.map
           (fun q => if q.id == p.id then paySet true q else q) },
       txnReconciled t2 pid now) := by
    simp [reconcile, hf2, hp, h2r, hpv, hba, hnotlt]
  refine ⟨_, hrecEq, ?_⟩
  have hfind1 : (s.transactions.map
        (fun u => if u.id == t2.id then txnReconciled t2 pid now else u)).find?
      (fun u => u.id == tid1 && u.org_id == org) = some t1 := by
    apply find?_txn_update_other s.transactions tid1 org t2.id t1
      (txnReconciled t2 pid now) hf1 ?_ hne
    rw [txnReconciled_id, ← ht1fields.2.1]
    exact fun hh => hne hh.symm
  have hunrecEq : unreconcile
      { transactions := s.transactions.map
          (fun u => if u.id == t2.id then txnReconciled t2 pid now else u),
        payments := s.payments.map
          (fun q => if q.id == p.id then paySet true q else q) } org tid1 =
      .ok ({ transactions := (s.transactions.map
               (fun u => if u.id == t2.id then txnReconciled t2 pid now else u)).map
               (fun u => if u.id == t1.id then txnCleared t1 else u),
             payments := (s.payments.map
               (fun q => if q.id == p.id then paySet true q else q)).map
               (fun q => if q.id == pid then paySet false q else q) },
           txnCleared t1) := by
    simp only [unreconcile, findTxn, hfind1, h1r, h1m]
    rfl
  refine ⟨_, _, hunrecEq, ?_, ?_⟩
  · intro q hq hqid
    rcases List.mem_map.mp hq with ⟨q0, hq0, rfl⟩
    by_cases h : q0.id = pid
    · rw [if_pos (by simpa using h)]
      rfl
    · exfalso
      rw [if_neg (by simpa using h)] at hqid
      exact h hqid
  · refine ⟨txnReconciled t2 pid now, ?_, txnReconciled_id t2 pid now, rfl, rfl⟩
    apply List.mem_map.mpr
    refine ⟨txnReconciled t2 pid now, ?_, ?_⟩
    · apply List.mem_map.mpr
      exact ⟨t2, ht2fields.1, by rw [if_pos (beq_self_eq_true _)]⟩
    · rw [if_neg (by
        rw [txnReconciled_id]
        simpa using fun hh => hne hh.symm)]

theorem C10_reconcile_ignores_payment_flag_witness :
    ∃ s1, reconcile sharedPaymentState 1 2 10 7 =
        .ok (s1, txnReconciled ⟨2, 1, 5, 0, [], 100, false, none, none⟩ 10 7) ∧
      ∃ s2 t1c, unreconcile s1 1 1 = .ok (s2, t1c) ∧
        (∀ q ∈ s2.payments, q.id = 10 → q.is_reconciled = false) ∧
        ∃ u ∈ s2.transactions,
          u.id = (⟨2, 1, 5, 0, [], 100, false, none, none⟩ : BankTransaction).id ∧
          u.is_reconciled = true ∧ u.matched_payment = some 10 :=
  C10_reconcile_ignores_payment_flag sharedPaymentState 1 1 2 10 7
    ⟨1, 1, 5, 0, [], 100, true, some 5, some 10⟩
    ⟨2, 1, 5, 0, [], 100, false, none, none⟩
    ⟨10, 1, 5, 100, false, true⟩
    rfl rfl (by decide) rfl rfl rfl rfl rfl rfl rfl (by norm_num)

theorem allocateLoop_ok (s : AllocState) (p : AllocPayment) :
    ∀ (batch : List (ℕ × ℚ)) (total : ℚ) (nid : ℕ)
      (acc : List PaymentAllocation) (t' : ℚ) (n' : ℕ)
      (acc' : List PaymentAllocation),
      allocateLoop s p batch total nid acc = .ok (t', n', acc') →
      ∃ news, acc' = acc ++ news ∧
        (∀ a ∈ news, 0 < a.allocated_amount ∧ a.payment_id = p.id) ∧
        t' = total + (news.map (fun a => a.allocated_amount)).sum ∧
        (t' ≤ p.amount ∨ t' = total) := by
  intro batch
  induction batch with
  | nil =>
    intro total nid acc t' n' acc' h
    simp only [allocateLoop, Except.ok.injEq, Prod.mk.injEq] at h
    obtain ⟨h1, _, h3⟩ := h
    refine ⟨[], by rw [← h3, List.append_nil], by simp, by simp [← h1], ?_⟩
    exact Or.inr h1.symm
  | cons e rest ih =>
    intro total nid acc t' n' acc' h
    obtain ⟨did, amt⟩ := e
    rw [allocateLoop] at h
    cases hd : s.documents.find? (fun d => d.id == did) with
    | none => rw [hd] at h; cases h
    | some d =>
      simp only [hd] at h
      split at h
      · cases h
      split at h
      · cases h
      split at h
      · cases h
      split at h
      · cases h
      split at h
      · cases h
      rename_i hc1 hc2 hc3 hc4 hc5
      obtain ⟨news', hacc, hpos, ht', hdisj⟩ :=
        ih (total + amt) (nid + 1) (acc ++ [mkAllocation nid p did amt])
          t' n' acc' h
      refine ⟨mkAllocation nid p did amt :: news', ?_, ?_, ?_, ?_⟩
      · rw [hacc, List.append_assoc]
        rfl
      · intro a ha
        rcases List.mem_cons.mp ha with rfl | ha
        · exact ⟨lt_of_not_le hc4, rfl⟩
        · exact hpos a ha
      · rw [ht', List.map_cons, List.sum_cons]
        show _ = total + (amt + _)
        ring
      · rcases hdisj with hle | heq
        · exact Or.inl hle
        · exact Or.inl (heq ▸ le_of_not_lt hc5)

theorem allocatedSum_append_news (s : AllocState)
    (news : List PaymentAllocation) (qid : ℕ) :
    (((s.allocations ++ news).filter
        (fun a => a.payment_id == qid)).map
      (fun a => a.allocated_amount)).sum =
      allocatedSum s qid +
        ((news.filter (fun a => a.payment_id == qid)).map
          (fun a => a.allocated_amount)).sum := by
  rw [List.filter_append, List.map_append, List.sum_append]
  rfl

theorem allocate_preserves {s : AllocState} {pid : ℕ} {batch : List (ℕ × ℚ)}
    {s' : AllocState} (hinv : AllocInvariant s)
    (h : allocate s pid batch = .ok s') : AllocInvariant s' := by
  unfold allocate at h
  cases hfp : s.payments.find? (fun p => p.id == pid) with
  | none => rw [hfp] at h; cases h
  | some p =>
    simp only [hfp] at h
    have hpmem := List.mem_of_find?_eq_some hfp
    have hpid : p.id = pid := by
      have := List.find?_some hfp
      simpa using this
    split at h
    · cases h
    split at h
    · cases h
    cases hloop : allocateLoop s p batch (allocatedSum s pid) s.nextAllocId []
      with
    | error e => simp only [hloop] at h; cases h
    | ok out =>
      simp only [hloop] at h
      obtain ⟨t', n', newAllocs⟩ := out
      cases h
      obtain ⟨news, hacc, hpos, ht', hdisj⟩ :=
        allocateLoop_ok s p batch (allocatedSum s pid) s.nextAllocId []
          t' n' newAllocs hloop
      rw [List.nil_append] at hacc
      subst hacc
      refine ⟨hinv.1, ?_, ?_⟩
      · intro a ha
        rcases List.mem_append.mp ha with ha | ha
        · exact hinv.2.1 a ha
        · exact (hpos a ha).1
      · intro q hq
        show (((s.allocations ++ newAllocs).filter
            (fun a => a.payment_id == q.id)).map
          (fun a => a.allocated_amount)).sum ≤ q.amount
        rw [allocatedSum_append_news]
        by_cases hqid : q.id = pid
        · have hqp : q = p :=
            List.inj_on_of_nodup_map hinv.1 hq hpmem (by rw [hqid, hpid])
          have hall : newAllocs.filter (fun a => a.payment_id == q.id) =
              newAllocs := by
            rw [List.filter_eq_self]
            intro a ha
            simp [(hpos a ha).2, hqp]
          rw [hall, hqid]
          rcases hdisj with hle | heq
          · rw [← ht']
            rw [hqp]
            exact hle
          · have hzero :
                ((newAllocs.map (fun a => a.allocated_amount)).sum : ℚ) = 0 := by
              have := heq ▸ ht'
              linarith
            rw [hzero, add_zero]
            have := hinv.2.2 q hq
            rw [hqid] at this
            exact this
        · have hnone : newAllocs.filter (fun a => a.payment_id == q.id) = [] := by
            rw [List.filter_eq_nil_iff]
            intro a ha
            simp only [beq_iff_eq]
            rw [(hpos a ha).2, hpid]
            exact fun hh => hqid hh.symm
          rw [hnone]
          simp only [List.map_nil, List.sum_nil, add_zero]
          exact hinv.2.2 q hq

theorem unallocate_preserves {s : AllocState} {aid : ℕ} {s' : AllocState}
    (hinv : AllocInvariant s) (h : unallocate s aid = .ok s') :
    AllocInvariant s' := by
  unfold unallocate at h
  cases hf : s.allocations.find? (fun a => a.id == aid) with
  | none => rw [hf] at h; cases h
  | some a0 =>
    rw [hf] at h
    cases h
    refine ⟨hinv.1, ?_, ?_⟩
    · intro a ha
      exact hinv.2.1 a (List.mem_of_mem_filter ha)
    · intro q hq
      refine le_trans ?_ (hinv.2.2 q hq)
      apply List.Sublist.sum_le_sum
      · exact List.Sublist.map _
          (List.Sublist.filter _ (List.filter_sublist _))
      · intro x hx
        rcases List.mem_map.mp hx with ⟨a, ha, rfl⟩
        exact le_of_lt (hinv.2.1 a (List.mem_of_mem_filter ha))

theorem applyAllocOp_preserves {s : AllocState} {op : AllocOp}
    (hinv : AllocInvariant s) : AllocInvariant (applyAllocOp s op) := by
  cases op with
  | alloc pid batch =>
    simp only [applyAllocOp]
    cases hr : allocate s pid batch with
    | ok s' => exact allocate_preserves hinv hr
    | error e => exact hinv
  | unalloc aid =>
    simp only [applyAllocOp]
    cases hr : unallocate s aid with
    | ok s' => exact unallocate_preserves hinv hr
    | error e => exact hinv

/-- C1: for every payment, the sum of allocated amounts across its
allocations never exceeds the payment amount after any sequence of
allocate/unallocate operations (each a single atomic unit of work whose
failure persists nothing); in particular the batch 545.00 + 255.00 against
the 500.00 payment fails with `AllocationExceedsPayment` and persists zero
allocations — the state is unchanged and holds no allocation rows. -/
theorem C1_allocation_sum_invariant :
    (∀ (s : AllocState) (ops : List AllocOp), AllocInvariant s →
      AllocInvariant (ops.foldl applyAllocOp s)) ∧
    allocate allocC1State 1 [(10, 545), (20, 255)] =
      .error .allocationExceedsPayment ∧
    applyAllocOp allocC1State (.alloc 1 [(10, 545), (20, 255)]) =
      allocC1State ∧
    allocC1State.allocations = [] := by
  have h2 : allocate allocC1State 1 [(10, 545), (20, 255)] =
      .error .allocationExceedsPayment := by
    have hfp : allocC1State.payments.find? (fun p => p.id == 1) =
        some ⟨1, 500, 1, 3, false⟩ := rfl
    have hfd : allocC1State.documents.find? (fun d => d.id == 10) =
        some ⟨10, .approved, 545, 3⟩ := rfl
    have hsum0 : allocatedSum allocC1State 1 = 0 := rfl
    have hamt1 : ¬ ((545 : ℚ) ≤ 0) := by norm_num
    have hsum1 : ((500 : ℚ) < 0 + 545) := by norm_num
    rw [allocate]
    simp only [hfp]
    rw [if_neg (by simp), if_neg (by simp)]
    rw [allocateLoop]
    simp only [hfd, hsum0]
    rw [if_neg (by simp), if_neg (by simp), if_neg (by simp [allocC1State]),
      if_neg hamt1, if_pos hsum1]
  refine ⟨?_, h2, ?_, rfl⟩
  · intro s ops hinv
    induction ops generalizing s with
    | nil => exact hinv
    | cons op ops ih => exact ih _ (applyAllocOp_preserves hinv)
  · simp only [applyAllocOp, h2]

theorem C1_allocation_sum_invariant_witness :
    AllocInvariant
      (([AllocOp.alloc 1 [(20, 255)]].foldl applyAllocOp) allocC1State) :=
  C1_allocation_sum_invariant.1 allocC1State [.alloc 1 [(20, 255)]]
    (by
      refine ⟨by decide, ?_, ?_⟩
      · intro a ha
        simp [allocC1State] at ha
      · intro p hp
        simp only [allocC1State, List.mem_singleton] at hp
        subst hp
        show allocatedSum allocC1State _ ≤ _
        rw [show allocatedSum allocC1State 1 = 0 from rfl]
        norm_num)

end LedgerSG
